import Mathlib

/-!
Verification of the Gaussian-SDF nerfstudio extension
(nerfstudio/fields/gaussian_NeRF_Field.py and nerfstudio/models/gaussian_NeRF.py).

Python/torch floating-point arithmetic is embedded as real arithmetic.
Tensors are embedded as functions: a 3D volume of resolution R is a function
on Fin R indices, zero-extended to all of ℤ where torch would zero-pad.
External torch primitives that the two files call (conv3d, grid_sample,
autograd.grad, Normal.icdf) are embedded by their documented semantics.
-/

open MeasureTheory Set

noncomputable section

namespace GaussianNeRF

/-- torch.linspace: steps evenly spaced values from a to b inclusive;
for steps = 1 torch returns the single value a. -/
def torchLinspace (a b : ℝ) (steps : ℕ) : Fin steps → ℝ :=
  fun i => if steps = 1 then a else a + (i : ℝ) * (b - a) / ((steps : ℝ) - 1)

/-- The kernel length computed by make_gaussian_kernel:
ks = int(sigma * 5), then ks += 1 if ks is even.  Python int() truncates
toward zero; on the sigma > 0 regime of the claims this is the floor. -/
def gaussianKernelSize (sigma : ℝ) : ℤ :=
  let ks := ⌊sigma * 5⌋
  if ks % 2 = 0 then ks + 1 else ks

/-- The sample points ts = torch.linspace(-ks // 2, ks // 2 + 1, ks) of
make_gaussian_kernel.  Python // is floor division, hence Int.fdiv. -/
def gaussianKernelTs (sigma : ℝ) : Fin (gaussianKernelSize sigma).toNat → ℝ :=
  torchLinspace (((-(gaussianKernelSize sigma)).fdiv 2 : ℤ) : ℝ)
    ((((gaussianKernelSize sigma).fdiv 2 + 1 : ℤ) : ℝ))
    (gaussianKernelSize sigma).toNat

/-- make_gaussian_kernel: gauss = exp(-(ts / sigma)^2 / 2),
kernel = gauss / gauss.sum(). -/
def make_gaussian_kernel (sigma : ℝ) : Fin (gaussianKernelSize sigma).toNat → ℝ :=
  fun i =>
    Real.exp (-(gaussianKernelTs sigma i / sigma) ^ 2 / 2) /
      ∑ j, Real.exp (-(gaussianKernelTs sigma j / sigma) ^ 2 / 2)

/-- A 3D volume, as a real-valued function of integer indices (depth, height,
width); indices outside the stored tensor hold the zero padding. -/
abbrev Vol : Type := ℤ → ℤ → ℤ → ℝ

/-- One torch conv3d pass with a (K,1,1)-shaped kernel, stride 1 and padding
(K // 2, 0, 0): cross-correlation along the leading spatial axis. -/
def convFirst {K : ℕ} (k : Fin K → ℝ) (v : Vol) : Vol :=
  fun x y z => ∑ j : Fin K, k j * v (x + (j : ℤ) - ((K / 2 : ℕ) : ℤ)) y z

/-- tensor.permute(0, 1, 4, 2, 3) on the three spatial axes: the new leading
spatial axis is the old trailing one. -/
def permuteLastToFront (v : Vol) : Vol := fun a b c => v b c a

/-- apply_3d_gaussian_blur: three iterations of permute(0,1,4,2,3) followed by
conv3d with the 1D kernel along the leading spatial axis, padding K // 2. -/
def apply_3d_gaussian_blur {K : ℕ} (k : Fin K → ℝ) (v : Vol) : Vol :=
  convFirst k (permuteLastToFront (convFirst k (permuteLastToFront
    (convFirst k (permuteLastToFront v)))))

/-- Direct 3D cross-correlation of the zero-padded volume with the outer
product k ⊗ k ⊗ k of the 1D kernel with itself three times. -/
def fullConv3d {K : ℕ} (k : Fin K → ℝ) (v : Vol) : Vol :=
  fun x y z => ∑ i : Fin K, ∑ j : Fin K, ∑ l : Fin K,
    k i * k j * k l *
      v (x + (i : ℤ) - ((K / 2 : ℕ) : ℤ)) (y + (j : ℤ) - ((K / 2 : ℕ) : ℤ))
        (z + (l : ℤ) - ((K / 2 : ℕ) : ℤ))

/-- Output length of a torch 1D cross-correlation pass along one axis:
n + 2·pad - K + 1 (stride 1, dilation 1). -/
def convOutputLen (n : ℕ) (pad K : ℕ) : ℤ := (n : ℤ) + 2 * (pad : ℤ) - (K : ℤ) + 1

/-- Spatial-size evolution of one loop iteration of apply_3d_gaussian_blur on
sizes (d, h, w): permute to (w, d, h), then convolve the leading axis with
padding K // 2. -/
def blurStepSizes (K : ℕ) (s : ℤ × ℤ × ℤ) : ℤ × ℤ × ℤ :=
  (s.2.2 + 2 * ((K / 2 : ℕ) : ℤ) - (K : ℤ) + 1, s.1, s.2.1)

/-- Spatial sizes produced by the three conv passes of apply_3d_gaussian_blur. -/
def blurOutputSizes (K : ℕ) (s : ℤ × ℤ × ℤ) : ℤ × ℤ × ℤ :=
  blurStepSizes K (blurStepSizes K (blurStepSizes K s))

/-- A stored tensor of resolution R × R × R. -/
abbrev GridR (R : ℕ) : Type := Fin R → Fin R → Fin R → ℝ

/-- Zero padding: extend an R × R × R tensor to all integer indices by 0,
as torch conv3d padding and grid_sample padding_mode zeros do. -/
def zeroExtend (R : ℕ) (g : GridR R) : Vol := fun x y z =>
  if hx : 0 ≤ x ∧ x < (R : ℤ) then
    if hy : 0 ≤ y ∧ y < (R : ℤ) then
      if hz : 0 ≤ z ∧ z < (R : ℤ) then
        g ⟨x.toNat, by omega⟩ ⟨y.toNat, by omega⟩ ⟨z.toNat, by omega⟩
      else 0
    else 0
  else 0

/-- Restriction of a volume back to the R × R × R index window that the torch
tensor stores. -/
def restrictR (R : ℕ) (v : Vol) : GridR R := fun x y z => v (x : ℤ) (y : ℤ) (z : ℤ)

/-- torch.nn.ReLU. -/
def relu (x : ℝ) : ℝ := max x 0

/-- torch.nn.Sigmoid: 1 / (1 + exp (-x)). -/
def sigmoid (x : ℝ) : ℝ := 1 / (1 + Real.exp (-x))

/-- Continuous grid index of a normalized coordinate in [-1, 1] under torch
grid_sample with align_corners=True: (c + 1) / 2 * (n - 1). -/
def gridSampleCoord (n : ℕ) (c : ℝ) : ℝ := (c + 1) / 2 * ((n : ℝ) - 1)

/-- torch grid_sample (mode bilinear, align_corners=True, padding_mode zeros)
on a cubic volume of resolution n: trilinear interpolation of the 8 lattice
neighbours, where the sample coordinate (x, y, z) indexes the (width, height,
depth) axes respectively. -/
def triSample (n : ℕ) (v : Vol) (p : ℝ × ℝ × ℝ) : ℝ :=
  let ix := gridSampleCoord n p.1
  let iy := gridSampleCoord n p.2.1
  let iz := gridSampleCoord n p.2.2
  let x0 := ⌊ix⌋
  let y0 := ⌊iy⌋
  let z0 := ⌊iz⌋
  let wx := ix - (x0 : ℝ)
  let wy := iy - (y0 : ℝ)
  let wz := iz - (z0 : ℝ)
  (1 - wz) * ((1 - wy) * ((1 - wx) * v z0 y0 x0 + wx * v z0 y0 (x0 + 1)) +
      wy * ((1 - wx) * v z0 (y0 + 1) x0 + wx * v z0 (y0 + 1) (x0 + 1))) +
    wz * ((1 - wy) * ((1 - wx) * v (z0 + 1) y0 x0 + wx * v (z0 + 1) y0 (x0 + 1)) +
      wy * ((1 - wx) * v (z0 + 1) (y0 + 1) x0 + wx * v (z0 + 1) (y0 + 1) (x0 + 1)))

/-- Sampling a stored R³ tensor at a normalized point: grid_sample zero-pads
outside the tensor. -/
def sampleGrid (R : ℕ) (g : GridR R) (p : ℝ × ℝ × ℝ) : ℝ :=
  triSample R (zeroExtend R g) p

/-- The state a TCNNGaussianNeRFField instance stores for the grid / density /
certified-radius pipeline.  The tcnn hash-grid MLP backbone, direction
encoding and appearance embedding are external modules out of scope here. -/
structure FieldState (R : ℕ) where
  f : GridR R
  f_transition_function : String
  g_transition_function : String
  g_transition_alpha : ℝ
  g_transition_alpha_increments : ℝ
  sigma : ℝ
  density_multiplier : ℝ

/-- TCNNGaussianNeRFField.__init__, restricted to the state above.  The grid
is all ones for f_init = "ones", all zeros for f_init = "zeros", and
(1/2) * torch.rand(...) + 1/2 on every other string; rand stands for the
torch.rand draw, each entry in [0, 1).  The transition-function strings are
stored without any validation. -/
def TCNNGaussianNeRFField_init (R : ℕ) (sigma : ℝ) (f_init fT gT : String)
    (alpha alphaIncr densityMult : ℝ) (rand : GridR R) : FieldState R :=
  { f := if f_init = "ones" then fun _ _ _ => 1
      else if f_init = "zeros" then fun _ _ _ => 0
      else fun x y z => (1 / 2) * rand x y z + 1 / 2
    f_transition_function := fT
    g_transition_function := gT
    g_transition_alpha := alpha
    g_transition_alpha_increments := alphaIncr
    sigma := sigma
    density_multiplier := densityMult }

/-- The f-transitioned grid, shared by get_density and get_certified_radius:
torch.nn.ReLU()(self.f) if f_transition_function == "relu",
torch.nn.Sigmoid()(self.f) if it is "sigmoid"; any other string leaves the
Python local smoothed_grid unassigned, a NameError at query time (none). -/
def fTransitionedGrid {R : ℕ} (F : FieldState R) : Option (GridR R) :=
  if F.f_transition_function = "relu" then some (fun x y z => relu (F.f x y z))
  else if F.f_transition_function = "sigmoid" then
    some (fun x y z => sigmoid (F.f x y z))
  else none

/-- smoothed_grid = self.apply_3d_gaussian_blur(f-transitioned grid), using
the kernel make_gaussian_kernel(self.sigma) built at construction. -/
def smoothedGrid {R : ℕ} (F : FieldState R) : Option (GridR R) :=
  (fTransitionedGrid F).map fun g =>
    restrictR R (apply_3d_gaussian_blur (make_gaussian_kernel F.sigma) (zeroExtend R g))

/-- The g-transition applied in get_density: sigmoid(alpha * (s - 1/2)) when
g_transition_function == "sigmoid"; the else branch passes every other string
through unchanged. -/
def gTransition {R : ℕ} (F : FieldState R) (s : ℝ) : ℝ :=
  if F.g_transition_function = "sigmoid" then
    sigmoid (F.g_transition_alpha * (s - 1 / 2))
  else s

/-- arg_maxed_smoothed_grid of get_density: the g-transition applied
elementwise to the smoothed grid. -/
def argMaxedSmoothedGrid {R : ℕ} (F : FieldState R) : Option (GridR R) :=
  (smoothedGrid F).map fun s => fun x y z => gTransition F (s x y z)

/-- Modelled from the spec: trunc_exp from
nerfstudio.field_components.activations is not under src; the spec describes
it as a numerically-stable exponential activation saturating for very
negative/positive inputs.  The saturation threshold is taken as 15. -/
def truncExp (x : ℝ) : ℝ := Real.exp (max (-15) (min 15 x))

/-- The tail of get_density: the density produced from the scalar sampled off
arg_maxed_smoothed_grid is density_multiplier * trunc_exp(sampled). -/
def densityFromSampled {R : ℕ} (F : FieldState R) (o : ℝ) : ℝ :=
  F.density_multiplier * truncExp o

/-- get_density of TCNNGaussianNeRFField at one contracted-and-rescaled sample
position p in [-1, 1]³: grid_sample the arg_maxed smoothed grid at p, then
apply trunc_exp and the density multiplier.  none models the NameError raised
for an unrecognized f_transition_function. -/
def get_density_at {R : ℕ} (F : FieldState R) (p : ℝ × ℝ × ℝ) : Option ℝ :=
  (argMaxedSmoothedGrid F).map fun g => densityFromSampled F (sampleGrid R g p)

/-- The standard normal CDF Φ, via the Mathlib Gaussian density. -/
def stdNormalCDF (x : ℝ) : ℝ :=
  ∫ t in Iic x, ProbabilityTheory.gaussianPDFReal 0 1 t

/-- Modelled from the spec: torch.distributions.normal.Normal(0,1).icdf, the
standard normal inverse CDF Φ⁻¹, as the inverse of stdNormalCDF.  torch
returns a finite real exactly on the open interval (0, 1). -/
def stdNormalICDF : ℝ → ℝ := Function.invFun stdNormalCDF

/-- The set of inputs on which torch Normal(0,1).icdf is finite: icdf(0) and
icdf(1) are -inf and inf, and inputs outside [0, 1] give NaN. -/
def icdfInputInDomain (o : ℝ) : Prop := 0 < o ∧ o < 1

/-- Spec-following density tail for claim comparison, from §4.3 steps 3-4:
the sampled scalar o is transformed via sigma * Φ⁻¹(o) before the exponential
activation and density multiplier. -/
def densityFromSampledSpec {R : ℕ} (F : FieldState R) (o : ℝ) : ℝ :=
  F.density_multiplier * truncExp (F.sigma * stdNormalICDF o)

/-- np.linspace(a, b, m) with the default inclusive endpoint. -/
def npLinspace (a b : ℝ) (m : ℕ) : Fin m → ℝ :=
  fun i => a + (b - a) * (i : ℝ) / ((m : ℝ) - 1)

/-- The position lattice of get_certified_radius:
cartesian_product(l, l, l) of l = np.linspace(-1, 1, 2 * R) with itself,
flattened row-major (first coordinate slowest) as numpy reshape(-1, 3) does. -/
def certRadiusPositions (R : ℕ) : List (ℝ × ℝ × ℝ) :=
  (List.finRange (2 * R)).flatMap fun i =>
    (List.finRange (2 * R)).flatMap fun j =>
      (List.finRange (2 * R)).map fun l =>
        (npLinspace (-1) 1 (2 * R) i, npLinspace (-1) 1 (2 * R) j,
          npLinspace (-1) 1 (2 * R) l)

/-- output_aux of get_certified_radius as a function of the position:
self.sigma * m.icdf(F.grid_sample(smoothed_grid, position)).  No clamping is
applied to the grid_sample output before the inverse CDF. -/
def certOutputAux {R : ℕ} (F : FieldState R) (s : GridR R) (p : ℝ × ℝ × ℝ) : ℝ :=
  F.sigma * stdNormalICDF (sampleGrid R s p)

/-- The exact expression passed to m.icdf on the grid_sample branch of
get_certified_radius: the sampled smoothed-grid value itself, unclamped. -/
def certICDFArgument {R : ℕ} (F : FieldState R) (p : ℝ × ℝ × ℝ) : Option ℝ :=
  (smoothedGrid F).map fun s => sampleGrid R s p

/-- Euclidean norm of a gradient 3-vector, sdf_grads.norm(2, dim=1). -/
def norm2vec3 (g : ℝ × ℝ × ℝ) : ℝ := Real.sqrt (g.1 ^ 2 + g.2.1 ^ 2 + g.2.2 ^ 2)

/-- The eikonal loss of get_certified_radius: sdf_grads are the
torch.autograd.grad gradients of output_aux with respect to the lattice
positions (autogradGrad embeds that external reverse-mode primitive), and
eikonal_loss = ((sdf_grads.norm(2, dim=1) - 1) ** 2).mean(). -/
def get_certified_radius_eikonal {R : ℕ} (F : FieldState R) (s : GridR R)
    (autogradGrad : ((ℝ × ℝ × ℝ) → ℝ) → (ℝ × ℝ × ℝ) → ℝ × ℝ × ℝ) : ℝ :=
  let positions := certRadiusPositions R
  let sdf_grads := positions.map (autogradGrad (certOutputAux F s))
  ((sdf_grads.map fun g => (norm2vec3 g - 1) ^ 2).sum) / (sdf_grads.length : ℝ)

/-- Callback phases of the nerfstudio training engine. -/
inductive CallbackLocation : Type
  | beforeTrainIteration : CallbackLocation
  | afterTrainIteration : CallbackLocation
deriving DecidableEq

/-- The mutable model state the two training callbacks of GaussianNeRFModel
touch: the nerfacc occupancy grid (abstract type O) and the field state. -/
structure ModelState (R : ℕ) (O : Type) where
  occupancyGrid : O
  field : FieldState R

/-- A nerfstudio TrainingCallback record. -/
structure TrainingCallback (S : Type) where
  where_to_run : List CallbackLocation
  update_every_num_iters : ℕ
  func : ℕ → S → S

/-- GaussianNeRFModel.get_training_callbacks: two callbacks, both at
BEFORE_TRAIN_ITERATION with update_every_num_iters = 1; the first refreshes
the occupancy grid (occUpdate embeds occupancy_grid.every_n_step, which does
not touch the field), the second runs
self.field.g_transition_alpha += self.field.g_transition_alpha_increments. -/
def get_training_callbacks {R : ℕ} {O : Type} (occUpdate : ℕ → O → O) :
    List (TrainingCallback (ModelState R O)) :=
  [{ where_to_run := [CallbackLocation.beforeTrainIteration]
     update_every_num_iters := 1
     func := fun step s => { s with occupancyGrid := occUpdate step s.occupancyGrid } },
   { where_to_run := [CallbackLocation.beforeTrainIteration]
     update_every_num_iters := 1
     func := fun _ s =>
       { s with field := { s.field with g_transition_alpha :=
           s.field.g_transition_alpha + s.field.g_transition_alpha_increments } } }]

/-- Modelled from the spec: the nerfstudio training engine (out of src) runs,
at the start of iteration step, every callback whose where_to_run contains
BEFORE_TRAIN_ITERATION, once every update_every_num_iters iterations, in list
order. -/
def runCallbacksBefore {S : Type} (cbs : List (TrainingCallback S)) (step : ℕ)
    (s : S) : S :=
  cbs.foldl
    (fun st cb =>
      if CallbackLocation.beforeTrainIteration ∈ cb.where_to_run ∧
          step % cb.update_every_num_iters = 0 then cb.func step st
      else st) s

/-- The model state after the before-iteration callbacks of the first N
training iterations. -/
def stateAfterIterations {R : ℕ} {O : Type} (occUpdate : ℕ → O → O)
    (s0 : ModelState R O) : ℕ → ModelState R O
  | 0 => s0
  | Nat.succ n =>
      runCallbacksBefore (get_training_callbacks occUpdate) n
        (stateAfterIterations occUpdate s0 n)

/-- Control flow of GaussianNeRFModel.get_image_metrics_and_images around the
certified-radius visualization.  radiusResult is the outcome of the
self.field.get_certified_radius() call inside the try block (none when it
raises).  On failure the except clause swallows the error and prints, leaving
the locals radiix_heatmap / radiiy_heatmap / radiiz_heatmap unassigned; the
images_dict literal then reads them unconditionally, so Python raises a
NameError there, which no handler catches.  The normal return carries the
metric names and the image-dictionary keys. -/
def get_image_metrics_and_images (radiusResult : Option (ℝ × ℝ)) :
    Except String (List String × List String) :=
  let heatmapsAssigned : Option Unit := radiusResult.map fun _ => ()
  match heatmapsAssigned with
  | some _ =>
      Except.ok (["psnr", "ssim", "lpips"],
        ["img", "accumulation", "depth", "alive_ray_mask",
          "radiix_heatmap", "radiiy_heatmap", "radiiz_heatmap"])
  | none => Except.error "NameError: radiix_heatmap is not defined"

/-- A concrete field instance: f_init zeros, relu f-transition, sigmoid
g-transition, sigma 1, alpha 4, used to instantiate several statements. -/
def zerosReluField : FieldState 2 :=
  TCNNGaussianNeRFField_init 2 1 "zeros" "relu" "sigmoid" 4 0 1 fun _ _ _ => 0

/-- The all-zero stored tensor of resolution R. -/
def zeroGridR (R : ℕ) : GridR R := fun _ _ _ => 0

/-! ## Theorems -/

/-- Zero padding of the all-zero tensor is the all-zero volume. -/
theorem zeroExtend_zero (R : ℕ) : zeroExtend R (zeroGridR R) = fun _ _ _ => 0 := by
  funext x y z
  unfold zeroExtend zeroGridR
  split <;> try rfl
  split <;> try rfl
  split <;> rfl

/-- The separable blur of the all-zero volume is the all-zero volume. -/
theorem blur_zero {K : ℕ} (k : Fin K → ℝ) :
    apply_3d_gaussian_blur k (fun _ _ _ => 0) = fun _ _ _ => 0 := by
  funext x y z
  simp [apply_3d_gaussian_blur, convFirst, permuteLastToFront]

/-- grid_sample of the all-zero volume yields zero. -/
theorem triSample_zero (n : ℕ) (p : ℝ × ℝ × ℝ) :
    triSample n (fun _ _ _ => 0) p = 0 := by
  simp [triSample]

/-- The logistic sigmoid is strictly positive. -/
theorem sigmoid_pos (x : ℝ) : 0 < sigmoid x := by
  unfold sigmoid
  positivity

/-- The smoothed grid of the zeros/relu instance is identically zero. -/
theorem smoothedGrid_zerosReluField :
    smoothedGrid zerosReluField = some (zeroGridR 2) := by
  have hf : fTransitionedGrid zerosReluField = some (zeroGridR 2) := by
    have hfun : zerosReluField.f_transition_function = "relu" := rfl
    have hgrid : zerosReluField.f = fun _ _ _ => 0 := by
      unfold zerosReluField TCNNGaussianNeRFField_init
      simp
    unfold fTransitionedGrid zeroGridR
    simp [hfun, hgrid, relu]
  unfold smoothedGrid
  rw [hf]
  have hres : restrictR 2 (apply_3d_gaussian_blur
      (make_gaussian_kernel zerosReluField.sigma) (zeroExtend 2 (zeroGridR 2)))
      = zeroGridR 2 := by
    rw [zeroExtend_zero, blur_zero]
    rfl
  simp [hres]

/-- C3 (code_bug evidence): when get_certified_radius raises inside the try
block of get_image_metrics_and_images, the except clause swallows the error
but the images_dict literal still reads the never-assigned radiix_heatmap
local, so the method aborts with a NameError instead of returning the
remaining metrics and images. -/
theorem image_metrics_aborts_when_radius_fails :
    get_image_metrics_and_images none
      = Except.error "NameError: radiix_heatmap is not defined" := rfl

/-- C4 counterexample: construction with the unrecognized transition-function
strings "gelu" and "tanh" does not fail: the strings are stored as given.
The failure is deferred to query time for the f-transition (the NameError
modelled by none), and the g-transition silently falls back to the identity. -/
theorem transition_config_not_fail_fast_cex :
    (TCNNGaussianNeRFField_init 2 1 "ones" "gelu" "tanh" 4 0 1
        fun _ _ _ => 0).f_transition_function = "gelu" ∧
    fTransitionedGrid (TCNNGaussianNeRFField_init 2 1 "ones" "gelu" "tanh" 4 0 1
        fun _ _ _ => 0) = none ∧
    gTransition (TCNNGaussianNeRFField_init 2 1 "ones" "gelu" "tanh" 4 0 1
        fun _ _ _ => 0) (1 / 3) = 1 / 3 := by
  refine ⟨rfl, ?_, ?_⟩
  · unfold fTransitionedGrid TCNNGaussianNeRFField_init
    simp
  · unfold gTransition TCNNGaussianNeRFField_init
    simp

/-- C4 amended: construction stores any f_transition_function and
g_transition_function strings unvalidated; for an unrecognized
f_transition_function every density query fails at query time (NameError,
embedded as none), and an unrecognized g_transition_function silently behaves
as the identity. -/
theorem transition_config_deferred_failure (R : ℕ) (sigma : ℝ)
    (f_init fT gT : String) (alpha incr densityMult : ℝ) (rand : GridR R)
    (h1 : fT ≠ "relu") (h2 : fT ≠ "sigmoid") (h3 : gT ≠ "sigmoid") :
    (TCNNGaussianNeRFField_init R sigma f_init fT gT alpha incr densityMult
        rand).f_transition_function = fT ∧
    fTransitionedGrid (TCNNGaussianNeRFField_init R sigma f_init fT gT alpha
        incr densityMult rand) = none ∧
    (∀ p, get_density_at (TCNNGaussianNeRFField_init R sigma f_init fT gT alpha
        incr densityMult rand) p = none) ∧
    (∀ s, gTransition (TCNNGaussianNeRFField_init R sigma f_init fT gT alpha
        incr densityMult rand) s = s) := by
  have hnone : fTransitionedGrid (TCNNGaussianNeRFField_init R sigma f_init fT
      gT alpha incr densityMult rand) = none := by
    unfold fTransitionedGrid TCNNGaussianNeRFField_init
    simp [h1, h2]
  refine ⟨rfl, hnone, ?_, ?_⟩
  · intro p
    unfold get_density_at argMaxedSmoothedGrid smoothedGrid
    rw [hnone]
    rfl
  · intro s
    unfold gTransition TCNNGaussianNeRFField_init
    simp [h3]

/-- C4 amended, witness at the concrete strings "gelu" and "tanh". -/
theorem transition_config_deferred_failure_witness :
    (("gelu" : String) ≠ "relu" ∧ ("gelu" : String) ≠ "sigmoid" ∧
      ("tanh" : String) ≠ "sigmoid") ∧
    ((TCNNGaussianNeRFField_init 2 1 "ones" "gelu" "tanh" 4 0 1
        fun _ _ _ => 0).f_transition_function = "gelu" ∧
      fTransitionedGrid (TCNNGaussianNeRFField_init 2 1 "ones" "gelu" "tanh" 4
        0 1 fun _ _ _ => 0) = none ∧
      (∀ p, get_density_at (TCNNGaussianNeRFField_init 2 1 "ones" "gelu" "tanh"
        4 0 1 fun _ _ _ => 0) p = none) ∧
      (∀ s, gTransition (TCNNGaussianNeRFField_init 2 1 "ones" "gelu" "tanh" 4
        0 1 fun _ _ _ => 0) s = s)) :=
  ⟨⟨by simp, by simp, by simp⟩,
    transition_config_deferred_failure 2 1 "ones" "gelu" "tanh" 4 0 1
      (fun _ _ _ => 0) (by simp) (by simp) (by simp)⟩

/-- C8: grid initialization is all ones for mode "ones", all zeros for mode
"zeros", and for every other mode string (torch.rand entries lying in [0,1))
every element lies in [1/2, 1]. -/
theorem grid_init_modes (R : ℕ) (sigma : ℝ) (mode fT gT : String)
    (alpha incr densityMult : ℝ) (rand : GridR R)
    (hr : ∀ x y z, 0 ≤ rand x y z ∧ rand x y z < 1) :
    (mode = "ones" → ∀ x y z, (TCNNGaussianNeRFField_init R sigma mode fT gT
        alpha incr densityMult rand).f x y z = 1) ∧
    (mode = "zeros" → ∀ x y z, (TCNNGaussianNeRFField_init R sigma mode fT gT
        alpha incr densityMult rand).f x y z = 0) ∧
    (mode ≠ "ones" → mode ≠ "zeros" → ∀ x y z,
      1 / 2 ≤ (TCNNGaussianNeRFField_init R sigma mode fT gT alpha incr
        densityMult rand).f x y z ∧
      (TCNNGaussianNeRFField_init R sigma mode fT gT alpha incr densityMult
        rand).f x y z ≤ 1) := by
  unfold TCNNGaussianNeRFField_init
  refine ⟨?_, ?_, ?_⟩
  · intro h x y z
    simp [h]
  · intro h x y z
    simp [h]
  · intro h1 h2 x y z
    simp only [if_neg h1, if_neg h2]
    have := hr x y z
    constructor <;> linarith [this.1, this.2]

/-- C8, witness at mode "rand" with the constant-zero torch.rand draw. -/
theorem grid_init_modes_witness :
    (∀ _ _ _ : Fin 2, 0 ≤ (0 : ℝ) ∧ (0 : ℝ) < 1) ∧
    ((("rand" : String) = "ones" → ∀ x y z : Fin 2, (TCNNGaussianNeRFField_init 2 1
        "rand" "relu" "sigmoid" 4 0 1 fun _ _ _ => 0).f x y z = 1) ∧
      (("rand" : String) = "zeros" → ∀ x y z : Fin 2, (TCNNGaussianNeRFField_init 2 1
        "rand" "relu" "sigmoid" 4 0 1 fun _ _ _ => 0).f x y z = 0) ∧
      (("rand" : String) ≠ "ones" → ("rand" : String) ≠ "zeros" → ∀ x y z : Fin 2,
        1 / 2 ≤ (TCNNGaussianNeRFField_init 2 1 "rand" "relu" "sigmoid" 4 0 1
          fun _ _ _ => 0).f x y z ∧
        (TCNNGaussianNeRFField_init 2 1 "rand" "relu" "sigmoid" 4 0 1
          fun _ _ _ => 0).f x y z ≤ 1)) :=
  ⟨fun _ _ _ => ⟨le_refl 0, by norm_num⟩,
    grid_init_modes 2 1 "rand" "relu" "sigmoid" 4 0 1 (fun _ _ _ => 0)
      fun _ _ _ => ⟨le_refl 0, by norm_num⟩⟩

/-- C2 (code_bug evidence): with f_init zeros and the relu f-transition the
smoothed field is identically 0, and get_certified_radius passes the sampled
value 0 to the standard normal inverse CDF with no clamping: the argument is
exactly 0, outside the open interval (0,1) on which torch icdf is finite, so
the radii are -inf rather than NaN/Inf-free. -/
theorem cert_radius_icdf_arg_unclamped :
    certICDFArgument zerosReluField (0, 0, 0) = some 0 ∧
    ¬ icdfInputInDomain 0 := by
  constructor
  · unfold certICDFArgument
    rw [smoothedGrid_zerosReluField]
    simp only [Option.map_some']
    rw [Option.some_inj]
    unfold sampleGrid
    rw [zeroExtend_zero, triSample_zero]
  · intro h
    exact lt_irrefl 0 h.1

/-- C10: get_certified_radius evaluates the sigma * Φ⁻¹ transform on samples
of the smoothed (blurred, f-transitioned) grid itself, while get_density
samples the g-transitioned grid sigmoid(alpha * (s - 1/2)); at any voxel
where the smoothed value is 0, the two fields necessarily differ (the sigmoid
is strictly positive). -/
theorem cert_vs_density_fields {R : ℕ} (F : FieldState R) (s : GridR R)
    (hg : F.g_transition_function = "sigmoid") (hs : smoothedGrid F = some s) :
    (∀ p, certOutputAux F s p = F.sigma * stdNormalICDF (sampleGrid R s p)) ∧
    argMaxedSmoothedGrid F
      = some (fun x y z => sigmoid (F.g_transition_alpha * (s x y z - 1 / 2))) ∧
    (∀ x y z, s x y z = 0 →
      sigmoid (F.g_transition_alpha * (s x y z - 1 / 2)) ≠ s x y z) := by
  refine ⟨fun _ => rfl, ?_, ?_⟩
  · unfold argMaxedSmoothedGrid
    rw [hs]
    simp only [Option.map_some', Option.some_inj]
    funext x y z
    unfold gTransition
    rw [if_pos hg]
  · intro x y z h0
    rw [h0]
    exact ne_of_gt (sigmoid_pos _)

/-- C10, witness at the zeros/relu/sigmoid instance. -/
theorem cert_vs_density_fields_witness :
    (zerosReluField.g_transition_function = "sigmoid" ∧
      smoothedGrid zerosReluField = some (zeroGridR 2)) ∧
    ((∀ p, certOutputAux zerosReluField (zeroGridR 2) p
        = zerosReluField.sigma * stdNormalICDF
            (sampleGrid 2 (zeroGridR 2) p)) ∧
      argMaxedSmoothedGrid zerosReluField
        = some (fun x y z => sigmoid (zerosReluField.g_transition_alpha *
            (zeroGridR 2 x y z - 1 / 2))) ∧
      (∀ x y z, zeroGridR 2 x y z = 0 →
        sigmoid (zerosReluField.g_transition_alpha *
            (zeroGridR 2 x y z - 1 / 2))
          ≠ zeroGridR 2 x y z)) :=
  ⟨⟨rfl, smoothedGrid_zerosReluField⟩,
    cert_vs_density_fields zerosReluField (zeroGridR 2) rfl
      smoothedGrid_zerosReluField⟩

/-- The field state after the two before-iteration callbacks of one training
iteration: the occupancy-grid callback leaves the field untouched and the
alpha callback adds the increment exactly once. -/
theorem runCallbacksBefore_field {R : ℕ} {O : Type} (occUpdate : ℕ → O → O)
    (step : ℕ) (s : ModelState R O) :
    (runCallbacksBefore (get_training_callbacks occUpdate) step s).field
      = { s.field with g_transition_alpha :=
          s.field.g_transition_alpha + s.field.g_transition_alpha_increments } := by
  unfold runCallbacksBefore get_training_callbacks
  simp [Nat.mod_one]

/-- C9: the sharpness parameter is incremented by
g_transition_alpha_increments exactly once at the start of each training
iteration, so after N iterations alpha equals alpha_0 + N * increment, and
the sequence of alpha values is monotone when the increment is nonnegative. -/
theorem alpha_annealing {R : ℕ} {O : Type} (occUpdate : ℕ → O → O)
    (s0 : ModelState R O) (N : ℕ)
    (hpos : 0 ≤ s0.field.g_transition_alpha_increments) :
    (∀ step s, (runCallbacksBefore (get_training_callbacks occUpdate) step
        s).field.g_transition_alpha
      = s.field.g_transition_alpha + (s : ModelState R O).field.g_transition_alpha_increments) ∧
    (stateAfterIterations occUpdate s0 N).field.g_transition_alpha
      = s0.field.g_transition_alpha
        + (N : ℝ) * s0.field.g_transition_alpha_increments ∧
    Monotone fun M : ℕ =>
      (stateAfterIterations occUpdate s0 M).field.g_transition_alpha := by
  have hfield : ∀ M : ℕ, (stateAfterIterations occUpdate s0 M).field
      = { s0.field with g_transition_alpha := s0.field.g_transition_alpha
            + (M : ℝ) * s0.field.g_transition_alpha_increments } := by
    intro M
    induction M with
    | zero => simp [stateAfterIterations]
    | succ n ih =>
        unfold stateAfterIterations
        rw [runCallbacksBefore_field, ih]
        simp only []
        congr 1
        push_cast
        ring
  refine ⟨fun step s => by rw [runCallbacksBefore_field], ?_, ?_⟩
  · rw [hfield N]
  · intro a b hab
    simp only [hfield a, hfield b]
    have : (a : ℝ) ≤ (b : ℝ) := Nat.cast_le.mpr hab
    have hmul : (a : ℝ) * s0.field.g_transition_alpha_increments
        ≤ (b : ℝ) * s0.field.g_transition_alpha_increments :=
      mul_le_mul_of_nonneg_right this hpos
    simpa using add_le_add_left hmul s0.field.g_transition_alpha

/-- C9, witness at increment 1 starting from alpha 4 over 3 iterations. -/
theorem alpha_annealing_witness :
    0 ≤ (ModelState.mk () zerosReluField).field.g_transition_alpha_increments ∧
    ((∀ step s, (runCallbacksBefore (get_training_callbacks
          (fun _ u => u : ℕ → Unit → Unit)) step s).field.g_transition_alpha
        = s.field.g_transition_alpha
          + (s : ModelState 2 Unit).field.g_transition_alpha_increments) ∧
      (stateAfterIterations (fun _ u => u) (ModelState.mk () zerosReluField)
          3).field.g_transition_alpha
        = (ModelState.mk () zerosReluField).field.g_transition_alpha
          + ((3 : ℕ) : ℝ)
            * (ModelState.mk () zerosReluField).field.g_transition_alpha_increments ∧
      Monotone fun M : ℕ => (stateAfterIterations (fun _ u => u)
        (ModelState.mk () zerosReluField) M).field.g_transition_alpha) :=
  ⟨le_refl 0,
    alpha_annealing (fun _ u => u) (ModelState.mk () zerosReluField) 3
      (le_refl 0)⟩

/-- C7: for an odd-length 1D kernel, each of the three conv passes of
apply_3d_gaussian_blur (padding K // 2, stride 1) preserves every spatial
size, and the three sequential 1D convolutions compute exactly the direct 3D
cross-correlation of the zero-padded volume with the outer product
k ⊗ k ⊗ k. -/
theorem separable_blur_same_size_and_eq_fullConv {K : ℕ} (k : Fin K → ℝ)
    (v : Vol) (hK : K % 2 = 1) :
    (∀ d h w : ℕ, blurOutputSizes K ((d : ℤ), (h : ℤ), (w : ℤ))
        = ((d : ℤ), (h : ℤ), (w : ℤ))) ∧
    apply_3d_gaussian_blur k v = fullConv3d k v := by
  constructor
  · intro d h w
    have h2 : 2 * ((K / 2 : ℕ) : ℤ) = (K : ℤ) - 1 := by omega
    simp only [blurOutputSizes, blurStepSizes]
    rw [h2]
    refine Prod.ext (by ring) (Prod.ext (by ring) (by ring))
  · funext x y z
    simp only [apply_3d_gaussian_blur, convFirst, permuteLastToFront,
      fullConv3d, Finset.mul_sum]
    refine Finset.sum_congr rfl fun a _ => ?_
    refine Finset.sum_congr rfl fun b _ => ?_
    refine Finset.sum_congr rfl fun c _ => ?_
    ring

/-- C7, witness at the length-3 constant kernel on the all-zero volume. -/
theorem separable_blur_same_size_and_eq_fullConv_witness :
    3 % 2 = 1 ∧
    ((∀ d h w : ℕ, blurOutputSizes 3 ((d : ℤ), (h : ℤ), (w : ℤ))
        = ((d : ℤ), (h : ℤ), (w : ℤ))) ∧
      apply_3d_gaussian_blur (fun _ : Fin 3 => (1 : ℝ)) (fun _ _ _ => 0)
        = fullConv3d (fun _ : Fin 3 => (1 : ℝ)) (fun _ _ _ => 0)) :=
  ⟨by decide,
    separable_blur_same_size_and_eq_fullConv (fun _ : Fin 3 => (1 : ℝ))
      (fun _ _ _ => 0) (by decide)⟩

/-- Sum of a list flatMap, as the sum of the per-element sums. -/
theorem list_sum_flatMap {α β : Type} [AddCommMonoid β] (l : List α)
    (f : α → List β) :
    (l.flatMap f).sum = (l.map fun a => (f a).sum).sum := by
  induction l with
  | nil => rfl
  | cons a t ih => simp [List.flatMap_cons, ih]

/-- The certified-radius lattice has (2R)³ points. -/
theorem certRadiusPositions_length (R : ℕ) :
    (certRadiusPositions R).length = (2 * R) ^ 3 := by
  unfold certRadiusPositions
  simp [List.length_flatMap, Function.comp_def, List.map_const']
  ring

/-- Mapping a function over the certified-radius lattice and summing equals
the triple indexed sum over the per-axis linspace values. -/
theorem certRadiusPositions_map_sum (R : ℕ) (f : ℝ × ℝ × ℝ → ℝ) :
    ((certRadiusPositions R).map f).sum
      = ∑ i : Fin (2 * R), ∑ j : Fin (2 * R), ∑ l : Fin (2 * R),
          f (npLinspace (-1) 1 (2 * R) i, npLinspace (-1) 1 (2 * R) j,
            npLinspace (-1) 1 (2 * R) l) := by
  unfold certRadiusPositions
  simp only [Fin.sum_univ_def]
  simp [List.map_flatMap, list_sum_flatMap, List.map_map, Function.comp_def]

/-- C5: get_certified_radius builds its lattice from
np.linspace(-1, 1, 2R) on each of the three axes: (2R)³ points, per-axis
values regularly spaced from -1 to 1 inclusive; and eikonal_loss is the mean
over all lattice points of (‖∇radius‖₂ - 1)², where ∇radius is the autograd
gradient of the sigma·Φ⁻¹-transformed sampled smoothed field with respect to
the lattice positions. -/
theorem certified_radius_lattice_and_eikonal {R : ℕ} (hR : 1 ≤ R)
    (F : FieldState R) (s : GridR R)
    (autogradGrad : ((ℝ × ℝ × ℝ) → ℝ) → (ℝ × ℝ × ℝ) → ℝ × ℝ × ℝ) :
    (certRadiusPositions R).length = (2 * R) ^ 3 ∧
    npLinspace (-1) 1 (2 * R) ⟨0, by omega⟩ = -1 ∧
    npLinspace (-1) 1 (2 * R) ⟨2 * R - 1, by omega⟩ = 1 ∧
    (∀ i : Fin (2 * R), -1 ≤ npLinspace (-1) 1 (2 * R) i ∧
      npLinspace (-1) 1 (2 * R) i ≤ 1) ∧
    (∀ i : ℕ, (h : i + 1 < 2 * R) →
      npLinspace (-1) 1 (2 * R) ⟨i + 1, h⟩ - npLinspace (-1) 1 (2 * R) ⟨i, by omega⟩
        = 2 / ((2 * R : ℝ) - 1)) ∧
    (∀ p ∈ certRadiusPositions R, ∃ i j l : Fin (2 * R),
      p = (npLinspace (-1) 1 (2 * R) i, npLinspace (-1) 1 (2 * R) j,
        npLinspace (-1) 1 (2 * R) l)) ∧
    get_certified_radius_eikonal F s autogradGrad
      = (∑ i : Fin (2 * R), ∑ j : Fin (2 * R), ∑ l : Fin (2 * R),
          (norm2vec3 (autogradGrad (certOutputAux F s)
            (npLinspace (-1) 1 (2 * R) i, npLinspace (-1) 1 (2 * R) j,
              npLinspace (-1) 1 (2 * R) l)) - 1) ^ 2) / ((2 * R : ℝ)) ^ 3 := by
  have hden : (0 : ℝ) < (2 * R : ℝ) - 1 := by
    have : (2 : ℝ) ≤ (2 * R : ℝ) := by exact_mod_cast Nat.le_mul_of_pos_right 2 hR
    linarith
  have hne : ((2 * R : ℝ)) - 1 ≠ 0 := ne_of_gt hden
  refine ⟨certRadiusPositions_length R, ?_, ?_, ?_, ?_, ?_, ?_⟩
  · unfold npLinspace
    simp
  · unfold npLinspace
    have hcast : (((2 * R - 1 : ℕ) : ℝ)) = (2 * R : ℝ) - 1 := by
      have : 1 ≤ 2 * R := by omega
      push_cast [Nat.cast_sub this]
      ring
    simp only [Fin.val_mk, hcast]
    field_simp
  · intro i
    have hi : ((i : ℕ) : ℝ) ≤ 2 * (R : ℝ) - 1 := by
      have hlt : ((i : ℕ) : ℝ) + 1 ≤ ((2 * R : ℕ) : ℝ) := by
        exact_mod_cast Nat.succ_le_of_lt i.isLt
      push_cast at hlt
      linarith
    have hi0 : (0 : ℝ) ≤ ((i : ℕ) : ℝ) := Nat.cast_nonneg _
    unfold npLinspace
    push_cast
    constructor
    · have h1 : 0 ≤ (1 - (-1 : ℝ)) * ((i : ℕ) : ℝ) / (2 * (R : ℝ) - 1) := by
        positivity
      linarith
    · have h2 : (1 - (-1 : ℝ)) * ((i : ℕ) : ℝ) / (2 * (R : ℝ) - 1) ≤ 2 := by
        rw [div_le_iff₀ hden]
        nlinarith
      linarith
  · intro i h
    unfold npLinspace
    simp only [Fin.val_mk]
    push_cast
    field_simp
    ring
  · intro p hp
    unfold certRadiusPositions at hp
    simp only [List.mem_flatMap, List.mem_map, List.mem_finRange] at hp
    obtain ⟨i, -, j, -, l, -, rfl⟩ := hp
    exact ⟨i, j, l, rfl⟩
  · unfold get_certified_radius_eikonal
    simp only [List.map_map, List.length_map]
    rw [certRadiusPositions_length R, certRadiusPositions_map_sum R]
    simp only [Function.comp_def]
    push_cast
    ring

/-- C5, witness at grid resolution 1 with a constant autograd oracle. -/
theorem certified_radius_lattice_and_eikonal_witness :
    1 ≤ 1 ∧
    ((certRadiusPositions 1).length = (2 * 1) ^ 3 ∧
      npLinspace (-1) 1 (2 * 1) ⟨0, by omega⟩ = -1 ∧
      npLinspace (-1) 1 (2 * 1) ⟨2 * 1 - 1, by omega⟩ = 1 ∧
      (∀ i : Fin (2 * 1), -1 ≤ npLinspace (-1) 1 (2 * 1) i ∧
        npLinspace (-1) 1 (2 * 1) i ≤ 1) ∧
      (∀ i : ℕ, (h : i + 1 < 2 * 1) →
        npLinspace (-1) 1 (2 * 1) ⟨i + 1, h⟩
            - npLinspace (-1) 1 (2 * 1) ⟨i, by omega⟩
          = 2 / (2 * ((1 : ℕ) : ℝ) - 1)) ∧
      (∀ p ∈ certRadiusPositions 1, ∃ i j l : Fin (2 * 1),
        p = (npLinspace (-1) 1 (2 * 1) i, npLinspace (-1) 1 (2 * 1) j,
          npLinspace (-1) 1 (2 * 1) l)) ∧
      get_certified_radius_eikonal
          (TCNNGaussianNeRFField_init 1 1 "ones" "relu" "sigmoid" 4 0 1
            fun _ _ _ => 0) (zeroGridR 1) (fun _ _ => (1, 0, 0))
        = (∑ i : Fin (2 * 1), ∑ j : Fin (2 * 1), ∑ l : Fin (2 * 1),
            (norm2vec3 ((fun _ _ => ((1 : ℝ), (0 : ℝ), (0 : ℝ)))
              (certOutputAux (TCNNGaussianNeRFField_init 1 1 "ones" "relu"
                "sigmoid" 4 0 1 fun _ _ _ => 0) (zeroGridR 1))
              (npLinspace (-1) 1 (2 * 1) i, npLinspace (-1) 1 (2 * 1) j,
                npLinspace (-1) 1 (2 * 1) l)) - 1) ^ 2) / (2 * ((1 : ℕ) : ℝ)) ^ 3) := by
  exact ⟨le_refl 1,
    certified_radius_lattice_and_eikonal (le_refl 1)
      (TCNNGaussianNeRFField_init 1 1 "ones" "relu" "sigmoid" 4 0 1
        fun _ _ _ => 0) (zeroGridR 1) (fun _ _ => (1, 0, 0))⟩

/-- The kernel length is odd, positive, and within 1 of 5·sigma. -/
theorem gaussianKernelSize_props (sigma : ℝ) (hs : 0 < sigma) :
    gaussianKernelSize sigma % 2 = 1 ∧ 1 ≤ gaussianKernelSize sigma ∧
    5 * sigma - 1 < (gaussianKernelSize sigma : ℝ) ∧
    (gaussianKernelSize sigma : ℝ) ≤ 5 * sigma + 1 := by
  unfold gaussianKernelSize
  have h0 : (0 : ℤ) ≤ ⌊sigma * 5⌋ := Int.floor_nonneg.mpr (by positivity)
  have hlb : ((⌊sigma * 5⌋ : ℤ) : ℝ) ≤ sigma * 5 := Int.floor_le _
  have hub : sigma * 5 < ((⌊sigma * 5⌋ : ℤ) : ℝ) + 1 := Int.lt_floor_add_one _
  by_cases h : ⌊sigma * 5⌋ % 2 = 0
  · simp only [if_pos h]
    refine ⟨by omega, by omega, ?_, ?_⟩ <;> (try push_cast) <;> linarith
  · simp only [if_neg h]
    exact ⟨by omega, by omega, by linarith, by linarith⟩

/-- C6 amended: for every sigma > 0, the kernel length is int(5·sigma)
bumped to the next integer when even (odd, within 1 of 5·sigma), the values
are the normalized samples of the zero-mean, variance sigma², Gaussian
density at the ks torch.linspace points (equally spaced, symmetric about 0
whenever ks ≥ 3, but in general not integers), and the kernel sums to 1. -/
theorem make_gaussian_kernel_props (sigma : ℝ) (hs : 0 < sigma) :
    Odd (gaussianKernelSize sigma) ∧
    5 * sigma - 1 < (gaussianKernelSize sigma : ℝ) ∧
    (gaussianKernelSize sigma : ℝ) ≤ 5 * sigma + 1 ∧
    (∑ i, make_gaussian_kernel sigma i) = 1 ∧
    (∀ i, make_gaussian_kernel sigma i
      = ProbabilityTheory.gaussianPDFReal 0 ⟨sigma ^ 2, sq_nonneg sigma⟩
          (gaussianKernelTs sigma i)
        / ∑ j, ProbabilityTheory.gaussianPDFReal 0 ⟨sigma ^ 2, sq_nonneg sigma⟩
            (gaussianKernelTs sigma j)) ∧
    (3 ≤ (gaussianKernelSize sigma).toNat →
      ∀ i, gaussianKernelTs sigma i + gaussianKernelTs sigma i.rev = 0) := by
  obtain ⟨hodd, hone, hlo, hhi⟩ := gaussianKernelSize_props sigma hs
  have hn : 1 ≤ (gaussianKernelSize sigma).toNat := by omega
  haveI : Nonempty (Fin (gaussianKernelSize sigma).toNat) := ⟨⟨0, by omega⟩⟩
  have hS : 0 < ∑ j, Real.exp (-(gaussianKernelTs sigma j / sigma) ^ 2 / 2) :=
    Finset.sum_pos (fun j _ => Real.exp_pos _) Finset.univ_nonempty
  have hc : (0 : ℝ) < (Real.sqrt (2 * Real.pi * (sigma ^ 2)))⁻¹ := by
    have hπ : (0 : ℝ) < 2 * Real.pi * (sigma ^ 2) := by positivity
    positivity
  have hpdf : ∀ x : ℝ,
      ProbabilityTheory.gaussianPDFReal 0 ⟨sigma ^ 2, sq_nonneg sigma⟩ x
        = (Real.sqrt (2 * Real.pi * (sigma ^ 2)))⁻¹
            * Real.exp (-(x / sigma) ^ 2 / 2) := by
    intro x
    unfold ProbabilityTheory.gaussianPDFReal
    simp only [NNReal.coe_mk, sub_zero]
    congr 2
    ring
  refine ⟨Int.odd_iff.mpr hodd, hlo, hhi, ?_, ?_, ?_⟩
  · unfold make_gaussian_kernel
    rw [← Finset.sum_div, div_self (ne_of_gt hS)]
  · intro i
    unfold make_gaussian_kernel
    simp only [hpdf]
    rw [← Finset.mul_sum,
      mul_div_mul_left _ _ (ne_of_gt hc)]
  · intro h3 i
    have hnot1 : (gaussianKernelSize sigma).toNat ≠ 1 := by omega
    unfold gaussianKernelTs torchLinspace
    simp only [if_neg hnot1]
    have hab : ((((-(gaussianKernelSize sigma)).fdiv 2 : ℤ) : ℝ))
        + (((gaussianKernelSize sigma).fdiv 2 + 1 : ℤ) : ℝ) = 0 := by
      have hA : (-(gaussianKernelSize sigma)).fdiv 2
          = -(gaussianKernelSize sigma) / 2 :=
        Int.fdiv_eq_ediv _ (by norm_num)
      have hB : (gaussianKernelSize sigma).fdiv 2
          = (gaussianKernelSize sigma) / 2 :=
        Int.fdiv_eq_ediv _ (by norm_num)
      have hval : (-(gaussianKernelSize sigma)) / 2
          + ((gaussianKernelSize sigma) / 2 + 1) = 0 := by omega
      rw [hA, hB]
      exact_mod_cast congrArg (fun t : ℤ => (t : ℝ)) hval
    have hrev : ((i.rev : ℕ) : ℝ)
        = ((gaussianKernelSize sigma).toNat : ℝ) - 1 - ((i : ℕ) : ℝ) := by
      have hv : (i.rev : ℕ) = (gaussianKernelSize sigma).toNat - 1 - (i : ℕ) := by
        simp [Fin.rev]
        omega
      rw [hv]
      have hle : (i : ℕ) ≤ (gaussianKernelSize sigma).toNat - 1 := by
        have := i.isLt
        omega
      push_cast [Nat.cast_sub hle,
        Nat.cast_sub (by omega : 1 ≤ (gaussianKernelSize sigma).toNat)]
      ring
    have hge3 : (3 : ℝ) ≤ (((gaussianKernelSize sigma).toNat : ℕ) : ℝ) := by
      exact_mod_cast h3
    set a : ℝ := (((-(gaussianKernelSize sigma)).fdiv 2 : ℤ) : ℝ) with ha
    set b : ℝ := ((((gaussianKernelSize sigma).fdiv 2 + 1 : ℤ)) : ℝ) with hb
    set n : ℝ := (((gaussianKernelSize sigma).toNat : ℕ) : ℝ) with hnn
    have hne1 : n - 1 ≠ 0 := by
      intro hcontra
      have : n = 1 := by linarith
      linarith
    rw [hrev]
    field_simp
    linear_combination (n - 1) * hab

/-- C6 amended, witness at sigma = 1. -/
theorem make_gaussian_kernel_props_witness :
    (0 : ℝ) < 1 ∧
    (Odd (gaussianKernelSize 1) ∧
      5 * (1 : ℝ) - 1 < (gaussianKernelSize 1 : ℝ) ∧
      (gaussianKernelSize 1 : ℝ) ≤ 5 * (1 : ℝ) + 1 ∧
      (∑ i, make_gaussian_kernel 1 i) = 1 ∧
      (∀ i, make_gaussian_kernel 1 i
        = ProbabilityTheory.gaussianPDFReal 0 ⟨(1 : ℝ) ^ 2, sq_nonneg 1⟩
            (gaussianKernelTs 1 i)
          / ∑ j, ProbabilityTheory.gaussianPDFReal 0 ⟨(1 : ℝ) ^ 2, sq_nonneg 1⟩
              (gaussianKernelTs 1 j)) ∧
      (3 ≤ (gaussianKernelSize 1).toNat →
        ∀ i, gaussianKernelTs 1 i + gaussianKernelTs 1 i.rev = 0)) :=
  ⟨by norm_num, make_gaussian_kernel_props 1 (by norm_num)⟩

/-- C6 counterexample: for sigma = 1 the kernel length is 5 but the support
points are torch.linspace(-3, 3, 5) = (-3, -3/2, 0, 3/2, 3): the second
support point -3/2 is not an integer, so the kernel is not sampled over an
integer support. -/
theorem gaussian_kernel_support_not_integer :
    ¬ ∀ i : Fin (gaussianKernelSize 1).toNat,
        ∃ z : ℤ, gaussianKernelTs 1 i = (z : ℝ) := by
  have h5 : gaussianKernelSize 1 = 5 := by
    unfold gaussianKernelSize
    rw [show ((1 : ℝ) * 5) = ((5 : ℤ) : ℝ) by norm_num, Int.floor_intCast]
    decide
  intro h
  obtain ⟨z, hz⟩ := h ⟨1, by rw [h5]; decide⟩
  have hval : gaussianKernelTs 1 ⟨1, by rw [h5]; decide⟩ = -(3 / 2) := by
    unfold gaussianKernelTs torchLinspace
    simp only [h5]
    norm_num
    rw [show ((-5 : ℤ)).fdiv 2 = -3 by decide, show ((5 : ℤ)).fdiv 2 = 2 by decide]
    push_cast
    norm_num
  rw [hval] at hz
  have hz2 : (2 * z : ℤ) = -3 := by
    have : (2 : ℝ) * (z : ℝ) = -3 := by linarith [hz.symm]
    exact_mod_cast this
  omega

/-- The standard normal density is even. -/
theorem gaussPDF_even (x : ℝ) :
    ProbabilityTheory.gaussianPDFReal 0 1 (-x)
      = ProbabilityTheory.gaussianPDFReal 0 1 x := by
  unfold ProbabilityTheory.gaussianPDFReal
  simp [sub_zero, neg_sq]

/-- The standard normal density is integrable. -/
theorem gaussPDF_integrable :
    Integrable (ProbabilityTheory.gaussianPDFReal 0 1) :=
  ProbabilityTheory.integrable_gaussianPDFReal 0 1

/-- The standard normal CDF at the mean is 1/2, by symmetry of the density. -/
theorem stdNormalCDF_zero : stdNormalCDF 0 = 1 / 2 := by
  have h1 : (∫ t in Iic (0 : ℝ), ProbabilityTheory.gaussianPDFReal 0 1 t)
      = ∫ t in Ioi (0 : ℝ), ProbabilityTheory.gaussianPDFReal 0 1 t := by
    have h := integral_comp_neg_Iic (0 : ℝ)
      (ProbabilityTheory.gaussianPDFReal 0 1)
    simp only [gaussPDF_even, neg_zero] at h
    exact h
  have h2 : (∫ t in Iic (0 : ℝ), ProbabilityTheory.gaussianPDFReal 0 1 t)
      + ∫ t in Ioi (0 : ℝ), ProbabilityTheory.gaussianPDFReal 0 1 t = 1 := by
    have hcompl := integral_add_compl (measurableSet_Iic (a := (0 : ℝ)))
      gaussPDF_integrable (μ := volume)
    rw [compl_Iic] at hcompl
    rw [hcompl]
    exact ProbabilityTheory.integral_gaussianPDFReal_eq_one 0 (by norm_num)
  unfold stdNormalCDF
  linarith [h1, h2]

/-- The standard normal CDF is strictly monotone. -/
theorem stdNormalCDF_strictMono : StrictMono stdNormalCDF := by
  intro a b hab
  have hIic : ∀ c : ℝ, IntegrableOn (ProbabilityTheory.gaussianPDFReal 0 1)
      (Iic c) := fun c => gaussPDF_integrable.integrableOn
  have key : stdNormalCDF b - stdNormalCDF a
      = ∫ t in a..b, ProbabilityTheory.gaussianPDFReal 0 1 t := by
    unfold stdNormalCDF
    exact intervalIntegral.integral_Iic_sub_Iic (hIic a) (hIic b)
  have pos : 0 < ∫ t in a..b, ProbabilityTheory.gaussianPDFReal 0 1 t := by
    refine intervalIntegral.intervalIntegral_pos_of_pos_on
      gaussPDF_integrable.intervalIntegrable (fun x _ => ?_) hab
    exact ProbabilityTheory.gaussianPDFReal_pos 0 1 x (by norm_num)
  linarith [key, pos]

/-- torch Normal(0,1).icdf at 1/2 is the mean 0. -/
theorem stdNormalICDF_half : stdNormalICDF (1 / 2) = 0 := by
  have h := Function.leftInverse_invFun
    (f := stdNormalCDF) stdNormalCDF_strictMono.injective (0 : ℝ)
  rw [stdNormalCDF_zero] at h
  exact h

/-- C1 counterexample: with sigma = 1, density_multiplier = 1 and sampled
value o = 1/2, get_density computes density_multiplier * trunc_exp(o)
= exp(1/2), while the claimed sigma·Φ⁻¹ transform would give
trunc_exp(1 * Φ⁻¹(1/2)) = exp(0) = 1: the two disagree, because get_density
applies no inverse-CDF transform at all. -/
theorem get_density_no_icdf_cex :
    densityFromSampled
        (TCNNGaussianNeRFField_init 2 1 "ones" "relu" "sigmoid" 4 0 1
          fun _ _ _ => 0) (1 / 2)
      ≠ densityFromSampledSpec
          (TCNNGaussianNeRFField_init 2 1 "ones" "relu" "sigmoid" 4 0 1
            fun _ _ _ => 0) (1 / 2) := by
  unfold densityFromSampled densityFromSampledSpec truncExp
    TCNNGaussianNeRFField_init
  simp only [stdNormalICDF_half]
  norm_num

/-- C1 amended: for the recognized f-transitions, get_density samples the
g-transitioned smoothed grid at the normalized point and the final density is
density_multiplier * trunc_exp(sampled value): no sigma·Φ⁻¹ transform occurs
in the density query (that transform appears only in get_certified_radius). -/
theorem get_density_formula {R : ℕ} (F : FieldState R) (p : ℝ × ℝ × ℝ)
    (h : F.f_transition_function = "relu" ∨ F.f_transition_function = "sigmoid") :
    ∃ s : GridR R, smoothedGrid F = some s ∧
      get_density_at F p = some (F.density_multiplier *
        truncExp (sampleGrid R (fun x y z => gTransition F (s x y z)) p)) := by
  have hsm : ∃ s : GridR R, smoothedGrid F = some s := by
    unfold smoothedGrid fTransitionedGrid
    rcases h with h | h
    · rw [h]
      simp
    · rw [h]
      simp
  obtain ⟨s, hs⟩ := hsm
  refine ⟨s, hs, ?_⟩
  unfold get_density_at argMaxedSmoothedGrid
  rw [hs]
  simp only [Option.map_some']
  unfold densityFromSampled
  rfl

/-- C1 amended, witness at the ones/relu instance and the origin. -/
theorem get_density_formula_witness :
    ((TCNNGaussianNeRFField_init 2 1 "ones" "relu" "sigmoid" 4 0 1
        fun _ _ _ => 0).f_transition_function = "relu" ∨
      (TCNNGaussianNeRFField_init 2 1 "ones" "relu" "sigmoid" 4 0 1
        fun _ _ _ => 0).f_transition_function = "sigmoid") ∧
    (∃ s : GridR 2, smoothedGrid (TCNNGaussianNeRFField_init 2 1 "ones" "relu"
        "sigmoid" 4 0 1 fun _ _ _ => 0) = some s ∧
      get_density_at (TCNNGaussianNeRFField_init 2 1 "ones" "relu" "sigmoid" 4
          0 1 fun _ _ _ => 0) (0, 0, 0)
        = some ((TCNNGaussianNeRFField_init 2 1 "ones" "relu" "sigmoid" 4 0 1
            fun _ _ _ => 0).density_multiplier *
          truncExp (sampleGrid 2 (fun x y z =>
            gTransition (TCNNGaussianNeRFField_init 2 1 "ones" "relu" "sigmoid"
              4 0 1 fun _ _ _ => 0) (s x y z)) (0, 0, 0)))) :=
  ⟨Or.inl rfl,
    get_density_formula (TCNNGaussianNeRFField_init 2 1 "ones" "relu"
      "sigmoid" 4 0 1 fun _ _ _ => 0) (0, 0, 0) (Or.inl rfl)⟩

end GaussianNeRF
